import Mathlib

/-!
# jog: command-line entry point (`main.go`)

A shallow embedding of `main.go`: the config item expression parser
`ParseConfigExpression`, the config reader `ReadConfig`, the three printing
helpers and `main` itself (the argument scan, the conditional top-level
`recover`, and the calls into the logger, the config, `jsonpath` and the
stream processor).

Go strings are embedded as Lean strings.  The only bytes the program ever
inspects are `-` and `=`, both ASCII, so a test on the first byte of a string or
a split on `=` gives the same answer on characters as on bytes, and `len(s) > 0`
holds exactly when the string has a character.
-/

namespace Jog

/-! ## Strings -/

/-- Pieces of `s` between the occurrences of the one-byte separator `sep`:
the result of Go's `strings.Split(s, sep)` for a separator of length one.
There is one more piece than there are separators. -/
def splitChars (sep : Char) : List Char → List (List Char)
  | [] => [[]]
  | c :: cs =>
    if c = sep then [] :: splitChars sep cs
    else (c :: (splitChars sep cs).headD []) :: (splitChars sep cs).tail

/-- Go's `strings.Split(s, sep)` for a one-byte separator. -/
def Split (s : String) (sep : Char) : List String :=
  (splitChars sep s.data).map String.mk

/-- `ParseConfigExpression` of `main.go`.  The Go function returns
`(string, string, error)`; the error is embedded as an optional message,
`none` standing for `nil`. -/
def ParseConfigExpression (expr : String) : String × String × Option String :=
  match Split expr '=' with
  | [a, b] => (a, b, none)
  | _ => ("", "", some ("invalid config item expression: <" ++ expr ++ ">"))

/-! ## Events, collaborators and results -/

/-- Styles of the `color` package that `main.go` prints with. -/
inductive Style
  | plain
  | bold
  | blueBold
  | red
  deriving DecidableEq, Repr

/-- Observable steps of a run of `main`.  `Cfg` is the type of the loaded
configuration (`Config`), which `main.go` only passes around. -/
inductive Event (Cfg : Type)
  /-- Text written to standard output by `fmt` or `color`. -/
  | out (style : Style) (text : String)
  /-- Text handed to the process-wide logger by `log.Println` or `log.Printf`. -/
  | log (text : String)
  /-- Call of `util.InitLogger()`. -/
  | InitLogger
  /-- Call of `ReadConfig(configFilePath)`. -/
  | ReadConfig (configFilePath : String)
  /-- Call of `jsonpath.Set(cfg, path, value)`. -/
  | Set (cfg : Cfg) (path value : String)
  /-- Call of `jsonpath.Get(cfg, path)`. -/
  | Get (cfg : Cfg) (path : String)
  /-- Call of `ProcessReader(cfg, os.Stdin)`. -/
  | ProcessReader (cfg : Cfg)
  /-- Call of `ProcessLocalFile(cfg, logFilePath)`. -/
  | ProcessLocalFile (cfg : Cfg) (logFilePath : String)
  /-- The deferred `logFile.Close()`. -/
  | Close
  /-- A run-time panic is raised with value `p`. -/
  | panic (p : String)
  deriving DecidableEq, Repr

/-- The functions and the constant that `main.go` uses and that live in other
files of the repository.  A call either returns (`.ok`) or panics with a value
(`.error`).  `Set` returns the configuration as it is after the call, and
`Get` the text that `fmt.Println` prints for the value read. -/
structure World (Cfg : Type) where
  DefaultYAML : String
  InitLogger : Except String Unit
  ConfigWithDefaultYamlFile : Except String Cfg
  ConfigWithYamlFile : String → Except String Cfg
  Set : Cfg → String → String → Except String Cfg
  Get : Cfg → String → Except String String
  ProcessReader : Cfg → Except String Unit
  ProcessLocalFile : Cfg → String → Except String Unit

/-- How the process ends: `exit 0` when `main` returns, `exit 1` through
`os.Exit(1)` in the recover handler, `crash` when a panic is not recovered
(the Go runtime prints the panic with its stack and ends the process with
status 2). -/
inductive Outcome
  | exit (status : Nat)
  | crash
  deriving DecidableEq, Repr

/-- A run of `main`: what it did, and how the process ended. -/
structure Run (Cfg : Type) where
  trace : List (Event Cfg)
  outcome : Outcome
  deriving DecidableEq, Repr

/-- A stretch of `main` that has run: its events (a raised panic included), and
the panic value if it ended in a panic. -/
structure Exec (Cfg : Type) where
  trace : List (Event Cfg)
  panic : Option String
  deriving DecidableEq, Repr

/-- Whether an event is a call into the stream processor. -/
def Event.isProcessing {Cfg : Type} : Event Cfg → Bool
  | .ProcessReader _ => true
  | .ProcessLocalFile _ _ => true
  | _ => false

/-- Whether an event is a call of `jsonpath.Set`. -/
def Event.isSet {Cfg : Type} : Event Cfg → Bool
  | .Set _ _ _ => true
  | _ => false

/-- Whether an event is a raised panic. -/
def Event.isPanic {Cfg : Type} : Event Cfg → Bool
  | .panic _ => true
  | _ => false

/-! ## Printing helpers -/

/-- `AppVersion` of `main.go`. -/
def AppVersion : String := "v0.9.0"

/-- `PrintVersion` of `main.go`. -/
def PrintVersion {Cfg : Type} : List (Event Cfg) :=
  [.out .plain (AppVersion ++ "\n")]

/-- `PrintConfigTemplate` of `main.go`. -/
def PrintConfigTemplate {Cfg : Type} (DefaultYAML : String) : List (Event Cfg) :=
  [.out .plain (DefaultYAML ++ "\n")]

/-- `PrintHelp` of `main.go`. -/
def PrintHelp {Cfg : Type} : List (Event Cfg) :=
  [.out .blueBold "Convert and view structured (JSON) log\n"]
  ++ PrintVersion
  ++ [ .out .plain "\n",
       .out .bold "Usage:\n",
       .out .plain "  jog  [option...]  <your JSON log file path>\n",
       .out .plain "  or\n",
       .out .plain "  cat  <your JSON file path>  |  jog  [option...]\n",
       .out .plain "\n",
       .out .bold "Options:\n",
       .out .plain "  -c, --config <config file path>     Specify config YAML file path. The default is .jog.yaml or $HOME/.job.yaml \n",
       .out .plain "  -cset, --config-set <config item path>=<config item value>    Set value to specified config item \n",
       .out .plain "  -cget, --config-get <config item path>                        Get value to specified config item \n",
       .out .plain "  -t, --template                      Print a config YAML file template\n",
       .out .plain "  -h, --help                          Display this information\n",
       .out .plain "  -V, --version                       Display app version information\n",
       .out .plain "  -d, --debug                         Print more error detail\n",
       .out .plain "\n" ]

/-! ## `ReadConfig` and `main` -/

/-- `ReadConfig` of `main.go`. -/
def ReadConfig {Cfg : Type} (w : World Cfg) (configFilePath : String) : Except String Cfg :=
  if configFilePath.length = 0 then w.ConfigWithDefaultYamlFile
  else w.ConfigWithYamlFile configFilePath

/-- The local variables of `main` that the argument scan assigns, with their
zero values. -/
structure ScanState where
  configFilePath : String := ""
  logFilePath : String := ""
  debug : Bool := false
  configItemPath : String := ""
  configItemValue : String := ""
  deriving DecidableEq, Repr

/-- How the argument loop of `main` ends: it runs to the end of the arguments,
or `main` returns from inside it after printing, or an expression in it
panics. -/
inductive ScanResult (Cfg : Type)
  | done (st : ScanState)
  | returned (printed : List (Event Cfg))
  | panicked (p : String)
  deriving DecidableEq, Repr

/-- The slice expression `arg[0:1]`: the first byte of `arg` as a string.
On the empty string the bounds are out of range and Go panics (`none`). -/
def slice01 (arg : String) : Option String :=
  match arg.data with
  | [] => none
  | c :: _ => some (String.mk [c])

/-- The `for` loop of `main` (lines 77-142) from the argument at index `i` on:
the list holds `os.Args[i:]`.  An option that takes a value tests
`i+1 >= len(os.Args)`, reads `os.Args[i+1]` and steps over it with `i++`. -/
def scan {Cfg : Type} (w : World Cfg) : List String → ScanState → ScanResult Cfg
  | [], st => .done st
  | arg :: rest, st =>
    match slice01 arg with
    | none => .panicked "runtime error: slice bounds out of range [:1] with length 0"
    | some first =>
      if first = "-" then
        if arg = "-c" ∨ arg = "--config" then
          match rest with
          | [] => .returned (.out .red "Missing config file path\n\n" :: PrintHelp)
          | value :: rest => scan w rest { st with configFilePath := value }
        else if arg = "-cset" ∨ arg = "--config-set" then
          match rest with
          | [] => .returned (.out .red "Missing config item expression\n\n" :: PrintHelp)
          | value :: rest =>
            match ParseConfigExpression value with
            | (path, itemValue, none) =>
              scan w rest
                { st with configItemPath := path, configItemValue := itemValue }
            | (_, _, some err) =>
              .returned (.out .red ("%v\n " ++ err ++ "\n") :: PrintHelp)
        else if arg = "-cget" ∨ arg = "--config-get" then
          match rest with
          | [] => .returned (.out .red "Missing config item path\n\n" :: PrintHelp)
          | value :: rest => scan w rest { st with configItemPath := value }
        else if arg = "-t" ∨ arg = "--template" then
          .returned (PrintConfigTemplate w.DefaultYAML)
        else if arg = "-h" ∨ arg = "--help" then
          .returned PrintHelp
        else if arg = "-V" ∨ arg = "--version" then
          .returned PrintVersion
        else if arg = "-d" ∨ arg = "--debug" then
          scan w rest { st with debug := true }
        else
          .returned (.out .red ("Unknown option: \x27" ++ arg ++ "\x27\n\n") :: PrintHelp)
      else
        scan w rest { st with logFilePath := arg }

/-- Lines 168-176 of `main`: the input is standard input when no log file path
was given, the named file otherwise; then an empty line is printed. -/
def process {Cfg : Type} (w : World Cfg) (st : ScanState) (cfg : Cfg) : Exec Cfg :=
  if st.logFilePath.length = 0 then
    match w.ProcessReader cfg with
    | .error p =>
      ⟨[.log "Read JSON log lines from stdin\n", .ProcessReader cfg, .panic p], some p⟩
    | .ok _ =>
      ⟨[.log "Read JSON log lines from stdin\n", .ProcessReader cfg, .out .plain "\n"], none⟩
  else
    match w.ProcessLocalFile cfg st.logFilePath with
    | .error p =>
      ⟨[.log ("processing local JSON log file: " ++ st.logFilePath ++ "\n"),
        .ProcessLocalFile cfg st.logFilePath, .panic p], some p⟩
    | .ok _ =>
      ⟨[.log ("processing local JSON log file: " ++ st.logFilePath ++ "\n"),
        .ProcessLocalFile cfg st.logFilePath, .out .plain "\n"], none⟩

/-- Lines 159-176 of `main`: the config item request, if any, then the stream
processing.  A request with a non-empty value is a set; a request with an
empty value prints the item and returns. -/
def configItem {Cfg : Type} (w : World Cfg) (st : ScanState) (cfg : Cfg) : Exec Cfg :=
  if st.configItemPath.length > 0 then
    if st.configItemValue.length > 0 then
      match w.Set cfg st.configItemPath st.configItemValue with
      | .error p =>
        ⟨[.Set cfg st.configItemPath st.configItemValue, .panic p], some p⟩
      | .ok cfg1 =>
        ⟨.Set cfg st.configItemPath st.configItemValue :: (process w st cfg1).trace,
          (process w st cfg1).panic⟩
    else
      match w.Get cfg st.configItemPath with
      | .error p => ⟨[.Get cfg st.configItemPath, .panic p], some p⟩
      | .ok text => ⟨[.Get cfg st.configItemPath, .out .plain (text ++ "\n")], none⟩
  else process w st cfg

/-- Lines 154-176 of `main`, with the deferred `logFile.Close()`: once
`util.InitLogger` has returned, `Close` runs when the function is left, by a
return or by a panic. -/
def body {Cfg : Type} (w : World Cfg) (st : ScanState) : Exec Cfg :=
  match w.InitLogger with
  | .error p => ⟨[.InitLogger, .panic p], some p⟩
  | .ok _ =>
    match ReadConfig w st.configFilePath with
    | .error p =>
      ⟨[.InitLogger, .ReadConfig st.configFilePath, .panic p, .Close], some p⟩
    | .ok cfg =>
      ⟨.InitLogger :: .ReadConfig st.configFilePath :: (configItem w st cfg).trace ++ [.Close],
        (configItem w st cfg).panic⟩

/-- The function `main` of `main.go` on the argument vector `Args` (`os.Args`,
the program name first).  The loop skips index 0.  The handler with `recover`
is deferred after the loop, and only when `debug` is false: a panic raised in
the loop is never recovered; a panic raised later is recovered, printed in
red and turned into `os.Exit(1)` when `debug` is false, and ends the process
otherwise. -/
def main {Cfg : Type} (w : World Cfg) (Args : List String) : Run Cfg :=
  match scan w (Args.drop 1) {} with
  | .panicked p => ⟨[.panic p], .crash⟩
  | .returned printed => ⟨printed, .exit 0⟩
  | .done st =>
    match (body w st).panic with
    | none => ⟨(body w st).trace, .exit 0⟩
    | some p =>
      if st.debug then ⟨(body w st).trace, .crash⟩
      else ⟨(body w st).trace ++ [.out .red (p ++ "\n\n")], .exit 1⟩

/-! ## Vocabulary of the command line -/

/-- The options that take the next argument as their value. -/
def takesValue (arg : String) : Bool :=
  arg = "-c" ∨ arg = "--config" ∨ arg = "-cset" ∨ arg = "--config-set"
    ∨ arg = "-cget" ∨ arg = "--config-get"

/-- Whether the argument begins with `-`. -/
def beginsWithDash (arg : String) : Bool :=
  arg.data.head? = some '-'

/-- The arguments after the program name, read from left to right. -/
inductive Token
  /-- An option that takes a value, with the argument it consumes. -/
  | option (name value : String)
  /-- An option that takes a value, in last position. -/
  | dangling (name : String)
  /-- Another argument that begins with `-`. -/
  | flag (name : String)
  /-- An argument that does not begin with `-` and is not consumed as a value. -/
  | positional (arg : String)
  deriving DecidableEq, Repr

/-- Reading of an argument list in which the argument after `-c`/`--config`,
`-cset`/`--config-set` or `-cget`/`--config-get` is consumed as its value,
whatever it looks like. -/
def tokens : List String → List Token
  | [] => []
  | arg :: rest =>
    if takesValue arg then
      match rest with
      | [] => [.dangling arg]
      | value :: rest => .option arg value :: tokens rest
    else if beginsWithDash arg then .flag arg :: tokens rest
    else .positional arg :: tokens rest

/-- The positional arguments: those that do not begin with `-` and are not
consumed as the value of an option. -/
def positionals (args : List String) : List String :=
  (tokens args).filterMap fun
    | .positional arg => some arg
    | _ => none

/-- Whether `-d` or `--debug` occurs at a position where it is not consumed as
the value of an option. -/
def debugGiven (args : List String) : Bool :=
  (tokens args).any fun t => t = .flag "-d" ∨ t = .flag "--debug"

/-- Whether a token is a config item request: `-cset`/`--config-set` or
`-cget`/`--config-get` with its value. -/
def Token.isConfigRequest : Token → Bool
  | .option name _ =>
    name = "-cset" ∨ name = "--config-set" ∨ name = "-cget" ∨ name = "--config-get"
  | _ => false

/-- The config item requests of an argument list, in order. -/
def configRequests (args : List String) : List Token :=
  (tokens args).filter Token.isConfigRequest

/-- What a config item request leaves in the pair of variables
`(configItemPath, configItemValue)`: a set request assigns both from the parsed
expression, a get request assigns the path only. -/
def applyRequest (item : String × String) : Token → String × String
  | .option name value =>
    if name = "-cset" ∨ name = "--config-set" then
      ((ParseConfigExpression value).1, (ParseConfigExpression value).2.1)
    else (value, item.2)
  | _ => item

/-- Argument lists that the scan passes over without `main` returning: each
argument is a positional argument (non-empty, not beginning with `-`), or
`-d`/`--debug`, or a complete `-c`/`-cset`/`-cget` option with an accepted
value (any value for `-c` and `-cget`, an expression that
`ParseConfigExpression` accepts for `-cset`). -/
inductive Passed : List String → Prop
  | nil : Passed []
  | positional (arg : String) (rest : List String) :
      arg ≠ "" → beginsWithDash arg = false → Passed rest → Passed (arg :: rest)
  | debug (arg : String) (rest : List String) :
      arg = "-d" ∨ arg = "--debug" → Passed rest → Passed (arg :: rest)
  | config (arg value : String) (rest : List String) :
      arg = "-c" ∨ arg = "--config" → Passed rest → Passed (arg :: value :: rest)
  | configSet (arg value : String) (rest : List String) :
      arg = "-cset" ∨ arg = "--config-set" →
      (ParseConfigExpression value).2.2 = none → Passed rest →
      Passed (arg :: value :: rest)
  | configGet (arg value : String) (rest : List String) :
      arg = "-cget" ∨ arg = "--config-get" → Passed rest → Passed (arg :: value :: rest)

/-- A world in which every call returns. -/
def World.quiet : World String where
  DefaultYAML := "fields: {}"
  InitLogger := .ok ()
  ConfigWithDefaultYamlFile := .ok "default"
  ConfigWithYamlFile := fun path => .ok path
  Set := fun cfg path value => .ok (cfg ++ ";" ++ path ++ "=" ++ value)
  Get := fun cfg path => .ok (cfg ++ "." ++ path)
  ProcessReader := fun _ => .ok ()
  ProcessLocalFile := fun _ _ => .ok ()

/-- A world in which reading a log file panics and every other call returns. -/
def World.noFile : World String :=
  { World.quiet with ProcessLocalFile := fun _ path => .error ("open " ++ path ++ ": no such file") }

/-- A world in which the logger cannot be initialised. -/
def World.noLogger : World String :=
  { World.quiet with InitLogger := .error "cannot open log file" }

/-! ## Lemmas on splitting -/

theorem splitChars_ne_nil (sep : Char) (s : List Char) : splitChars sep s ≠ [] := by
  cases s with
  | nil => simp [splitChars]
  | cons c cs =>
    unfold splitChars
    split <;> simp

theorem splitChars_cons_ne (sep : Char) {c : Char} {cs : List Char} (h : c ≠ sep) :
    splitChars sep (c :: cs)
      = (c :: (splitChars sep cs).headD []) :: (splitChars sep cs).tail := by
  rw [splitChars, if_neg h]

theorem splitChars_length (sep : Char) (s : List Char) :
    (splitChars sep s).length = s.count sep + 1 := by
  induction s with
  | nil => simp [splitChars]
  | cons c cs ih =>
    unfold splitChars
    by_cases h : c = sep
    · subst h
      simp [ih]
    · have hne := splitChars_ne_nil sep cs
      have hpos : 0 < (splitChars sep cs).length := List.length_pos.mpr hne
      have hc : (c == sep) = false := by simpa using h
      simp only [h, if_false, List.length_cons, List.length_tail, ih,
        List.count_cons, hc]
      simp

/-- Joining the pieces with the separator gives the string back. -/
theorem splitChars_join (sep : Char) (s : List Char) :
    [sep].intercalate (splitChars sep s) = s := by
  induction s with
  | nil => simp [splitChars, List.intercalate]
  | cons c cs ih =>
    unfold splitChars
    by_cases h : c = sep
    · subst h
      rw [if_pos rfl]
      have hne := splitChars_ne_nil c cs
      cases hs : splitChars c cs with
      | nil => exact absurd hs hne
      | cons p ps =>
        rw [hs] at ih
        simp only [List.intercalate, List.intersperse, List.flatten] at ih ⊢
        simpa using ih
    · rw [if_neg h]
      have hne := splitChars_ne_nil sep cs
      cases hs : splitChars sep cs with
      | nil => exact absurd hs hne
      | cons p ps =>
        rw [hs] at ih
        cases ps with
        | nil =>
          simp only [List.intercalate, List.intersperse, List.flatten, List.headD,
            List.tail] at ih ⊢
          simpa using ih
        | cons q qs =>
          simp only [List.intercalate, List.intersperse, List.flatten, List.headD,
            List.tail] at ih ⊢
          simpa using ih

/-- No piece contains the separator. -/
theorem splitChars_not_mem (sep : Char) (s : List Char) :
    ∀ p ∈ splitChars sep s, sep ∉ p := by
  induction s with
  | nil => simp [splitChars]
  | cons c cs ih =>
    unfold splitChars
    by_cases h : c = sep
    · subst h
      rw [if_pos rfl]
      intro p hp
      rcases List.mem_cons.mp hp with rfl | hp
      · simp
      · exact ih p hp
    · rw [if_neg h]
      have hne := splitChars_ne_nil sep cs
      cases hs : splitChars sep cs with
      | nil => exact absurd hs hne
      | cons q qs =>
        rw [hs] at ih
        intro p hp
        simp only [List.headD, List.tail, List.mem_cons] at hp
        rcases hp with rfl | hp
        · intro hmem
          rcases List.mem_cons.mp hmem with e | e
          · exact h e.symm
          · exact ih q (List.mem_cons_self _ _) e
        · exact ih p (List.mem_cons_of_mem _ hp)

theorem splitChars_of_not_mem (sep : Char) (s : List Char) (h : sep ∉ s) :
    splitChars sep s = [s] := by
  induction s with
  | nil => simp [splitChars]
  | cons c cs ih =>
    have hc : c ≠ sep := fun e => h (by simp [e])
    have hcs : sep ∉ cs := fun e => h (List.mem_cons_of_mem _ e)
    unfold splitChars
    rw [if_neg hc, ih hcs]
    simp

theorem splitChars_append (sep : Char) (a b : List Char) (h : sep ∉ a) :
    splitChars sep (a ++ sep :: b) = a :: splitChars sep b := by
  induction a with
  | nil => simp [splitChars]
  | cons c cs ih =>
    have hc : c ≠ sep := fun e => h (by simp [e])
    have hcs : sep ∉ cs := fun e => h (List.mem_cons_of_mem _ e)
    rw [List.cons_append, splitChars_cons_ne sep hc, ih hcs]
    simp

/-! ## `ParseConfigExpression` -/

theorem parse_of_split {expr : String} {a b : List Char}
    (h : splitChars '=' expr.data = [a, b]) :
    ParseConfigExpression expr = (String.mk a, String.mk b, none) := by
  simp [ParseConfigExpression, Split, h]

theorem parse_error_iff (expr : String) :
    (ParseConfigExpression expr).2.2 ≠ none ↔ expr.data.count '=' ≠ 1 := by
  have hlen := splitChars_length '=' expr.data
  unfold ParseConfigExpression Split
  rcases hs : splitChars '=' expr.data with _ | ⟨a, _ | ⟨b, _ | ⟨c, l⟩⟩⟩ <;>
    rw [hs] at hlen <;> simp at hlen ⊢ <;> omega

theorem parse_ok_split {expr p v : String}
    (h : ParseConfigExpression expr = (p, v, none)) :
    splitChars '=' expr.data = [p.data, v.data] := by
  unfold ParseConfigExpression Split at h
  rcases hs : splitChars '=' expr.data with _ | ⟨a, _ | ⟨b, _ | ⟨c, l⟩⟩⟩ <;>
    rw [hs] at h <;> simp at h
  obtain ⟨rfl, rfl⟩ := h
  rfl

theorem parse_join {path value : String}
    (hp : '=' ∉ path.data) (hv : '=' ∉ value.data) :
    ParseConfigExpression (path ++ "=" ++ value) = (path, value, none) := by
  have h : splitChars '=' (path ++ "=" ++ value).data = [path.data, value.data] := by
    have e : (path ++ "=" ++ value).data = path.data ++ '=' :: value.data := by
      simp [String.data_append]
    rw [e, splitChars_append '=' _ _ hp, splitChars_of_not_mem '=' _ hv]
  exact parse_of_split h

theorem parse_ok_inv {expr p v : String}
    (h : ParseConfigExpression expr = (p, v, none)) :
    p ++ "=" ++ v = expr ∧ '=' ∉ p.data ∧ '=' ∉ v.data := by
  have hs := parse_ok_split h
  have hj := splitChars_join '=' expr.data
  have hn := splitChars_not_mem '=' expr.data
  rw [hs] at hj hn
  refine ⟨?_, hn _ (by simp), hn _ (by simp)⟩
  apply String.ext
  rw [← hj]
  simp [String.data_append, List.intercalate, List.intersperse]

/-- C3: `ParseConfigExpression(expr)` returns an error if and only if `expr`
does not contain exactly one `=` character, and when it returns an error both
returned strings are empty. -/
theorem parseConfigExpression_error (expr : String) :
    ((ParseConfigExpression expr).2.2 ≠ none ↔ expr.data.count '=' ≠ 1)
    ∧ ((ParseConfigExpression expr).2.2 ≠ none →
        (ParseConfigExpression expr).1 = "" ∧ (ParseConfigExpression expr).2.1 = "") := by
  refine ⟨parse_error_iff expr, ?_⟩
  unfold ParseConfigExpression Split
  rcases splitChars '=' expr.data with _ | ⟨a, _ | ⟨b, _ | ⟨c, l⟩⟩⟩ <;> simp

/-- Witness of C3: the expression `a=b=c` has two `=`, it is rejected and both
strings are empty. -/
theorem parseConfigExpression_error_witness :
    (ParseConfigExpression "a=b=c").2.2 ≠ none
    ∧ (ParseConfigExpression "a=b=c").1 = "" ∧ (ParseConfigExpression "a=b=c").2.1 = "" :=
  ⟨by decide, (parseConfigExpression_error "a=b=c").2 (by decide)⟩

/-- C4: `ParseConfigExpression` inverts joining with `=`.  For `path` and
`value` without `=`, `ParseConfigExpression(path + "=" + value)` returns
`(path, value, nil)`; and when it succeeds on `expr` with `(p, v)`, then
`p + "=" + v` is `expr` and neither `p` nor `v` contains `=`. -/
theorem parseConfigExpression_inverts_join (path value expr p v : String) :
    ('=' ∉ path.data → '=' ∉ value.data →
        ParseConfigExpression (path ++ "=" ++ value) = (path, value, none))
    ∧ (ParseConfigExpression expr = (p, v, none) →
        p ++ "=" ++ v = expr ∧ '=' ∉ p.data ∧ '=' ∉ v.data) :=
  ⟨fun hp hv => parse_join hp hv, fun h => parse_ok_inv h⟩

/-- Witness of C4 at `level.color=red`. -/
theorem parseConfigExpression_inverts_join_witness :
    ParseConfigExpression ("level.color" ++ "=" ++ "red") = ("level.color", "red", none)
    ∧ ("level.color" ++ "=" ++ "red" = "level.color=red"
        ∧ '=' ∉ "level.color".data ∧ '=' ∉ "red".data) :=
  ⟨(parseConfigExpression_inverts_join "level.color" "red" "level.color=red"
      "level.color" "red").1 (by decide) (by decide),
   (parseConfigExpression_inverts_join "level.color" "red" "level.color=red"
      "level.color" "red").2 (by decide)⟩

/-! ## The argument scan -/

theorem slice01_eq_dash (arg : String) :
    slice01 arg = some "-" ↔ beginsWithDash arg = true := by
  rcases arg with ⟨_ | ⟨c, cs⟩⟩
  · simp [slice01, beginsWithDash]
  · simp only [slice01, beginsWithDash, List.head?_cons, Option.some.injEq, decide_eq_true_eq]
    constructor
    · intro h
      have := congrArg String.data h
      simpa using this
    · rintro rfl
      rfl

section ScanEquations

variable {Cfg : Type} (w : World Cfg) (st : ScanState)

theorem scan_empty {arg : String} (h : slice01 arg = none) (rest : List String) :
    scan w (arg :: rest) st
      = .panicked "runtime error: slice bounds out of range [:1] with length 0" := by
  cases rest <;> simp [scan, h]

theorem scan_config_last {arg : String} (h : arg = "-c" ∨ arg = "--config") :
    scan w [arg] st
      = .returned (.out .red "Missing config file path\n\n" :: PrintHelp) := by
  rcases h with rfl | rfl <;> simp [scan, slice01]

theorem scan_config {arg : String} (h : arg = "-c" ∨ arg = "--config")
    (value : String) (rest : List String) :
    scan w (arg :: value :: rest) st
      = scan w rest { st with configFilePath := value } := by
  rcases h with rfl | rfl <;> simp [scan, slice01]

theorem scan_configSet_last {arg : String} (h : arg = "-cset" ∨ arg = "--config-set") :
    scan w [arg] st
      = .returned (.out .red "Missing config item expression\n\n" :: PrintHelp) := by
  rcases h with rfl | rfl <;> simp [scan, slice01]

theorem scan_configSet {arg : String} (h : arg = "-cset" ∨ arg = "--config-set")
    {value : String} (hv : (ParseConfigExpression value).2.2 = none) (rest : List String) :
    scan w (arg :: value :: rest) st
      = scan w rest { st with configItemPath := (ParseConfigExpression value).1,
                              configItemValue := (ParseConfigExpression value).2.1 } := by
  rcases hp : ParseConfigExpression value with ⟨p, v, e⟩
  rw [hp] at hv
  simp only at hv
  subst hv
  rcases h with rfl | rfl <;> simp [scan, slice01, hp]

theorem scan_configSet_rejected {arg : String} (h : arg = "-cset" ∨ arg = "--config-set")
    {value err : String} (hv : (ParseConfigExpression value).2.2 = some err)
    (rest : List String) :
    scan w (arg :: value :: rest) st
      = .returned (.out .red ("%v\n " ++ err ++ "\n") :: PrintHelp) := by
  rcases hp : ParseConfigExpression value with ⟨p, v, e⟩
  rw [hp] at hv
  simp only at hv
  subst hv
  rcases h with rfl | rfl <;> simp [scan, slice01, hp]

theorem scan_configGet_last {arg : String} (h : arg = "-cget" ∨ arg = "--config-get") :
    scan w [arg] st
      = .returned (.out .red "Missing config item path\n\n" :: PrintHelp) := by
  rcases h with rfl | rfl <;> simp [scan, slice01]

theorem scan_configGet {arg : String} (h : arg = "-cget" ∨ arg = "--config-get")
    (value : String) (rest : List String) :
    scan w (arg :: value :: rest) st
      = scan w rest { st with configItemPath := value } := by
  rcases h with rfl | rfl <;> simp [scan, slice01]

theorem scan_template {arg : String} (h : arg = "-t" ∨ arg = "--template")
    (rest : List String) :
    scan w (arg :: rest) st = .returned (PrintConfigTemplate w.DefaultYAML) := by
  rcases h with rfl | rfl <;> cases rest <;> simp [scan, slice01]

theorem scan_help {arg : String} (h : arg = "-h" ∨ arg = "--help") (rest : List String) :
    scan w (arg :: rest) st = .returned PrintHelp := by
  rcases h with rfl | rfl <;> cases rest <;> simp [scan, slice01]

theorem scan_version {arg : String} (h : arg = "-V" ∨ arg = "--version")
    (rest : List String) :
    scan w (arg :: rest) st = .returned PrintVersion := by
  rcases h with rfl | rfl <;> cases rest <;> simp [scan, slice01]

theorem scan_debugFlag {arg : String} (h : arg = "-d" ∨ arg = "--debug")
    (rest : List String) :
    scan w (arg :: rest) st = scan w rest { st with debug := true } := by
  rcases h with rfl | rfl <;> cases rest <;> simp [scan, slice01]

theorem scan_positional {arg first : String} (h : slice01 arg = some first)
    (hf : first ≠ "-") (rest : List String) :
    scan w (arg :: rest) st = scan w rest { st with logFilePath := arg } := by
  cases rest <;> simp [scan, h, hf]

theorem scan_unknown {arg : String} (h : slice01 arg = some "-")
    (h1 : ¬(arg = "-c" ∨ arg = "--config")) (h2 : ¬(arg = "-cset" ∨ arg = "--config-set"))
    (h3 : ¬(arg = "-cget" ∨ arg = "--config-get")) (h4 : ¬(arg = "-t" ∨ arg = "--template"))
    (h5 : ¬(arg = "-h" ∨ arg = "--help")) (h6 : ¬(arg = "-V" ∨ arg = "--version"))
    (h7 : ¬(arg = "-d" ∨ arg = "--debug")) (rest : List String) :
    scan w (arg :: rest) st
      = .returned (.out .red ("Unknown option: \x27" ++ arg ++ "\x27\n\n") :: PrintHelp) := by
  cases rest <;> simp [scan, h, h1, h2, h3, h4, h5, h6, h7]

end ScanEquations

/-! ## Tokens -/

theorem tokens_option {arg : String} (h : takesValue arg = true) (value : String)
    (rest : List String) : tokens (arg :: value :: rest) = .option arg value :: tokens rest := by
  simp [tokens, h]

theorem tokens_flag {arg : String} (h : takesValue arg = false)
    (hd : beginsWithDash arg = true) (rest : List String) :
    tokens (arg :: rest) = .flag arg :: tokens rest := by
  cases rest <;> simp [tokens, h, hd]

theorem tokens_positional {arg : String} (h : takesValue arg = false)
    (hd : beginsWithDash arg = false) (rest : List String) :
    tokens (arg :: rest) = .positional arg :: tokens rest := by
  cases rest <;> simp [tokens, h, hd]

theorem takesValue_false_of_not_dash {arg : String} (hd : beginsWithDash arg = false) :
    takesValue arg = false := by
  by_contra h
  have h1 : takesValue arg = true := by simpa using h
  simp only [takesValue, decide_eq_true_eq] at h1
  rcases h1 with rfl | rfl | rfl | rfl | rfl | rfl <;> simp [beginsWithDash] at hd

theorem not_dash_of_slice01 {arg first : String} (h : slice01 arg = some first)
    (hf : first ≠ "-") : beginsWithDash arg = false ∧ arg ≠ "" := by
  constructor
  · by_contra hd
    have hd1 : beginsWithDash arg = true := by simpa using hd
    rw [← slice01_eq_dash, h] at hd1
    exact hf (by simpa using hd1)
  · rintro rfl
    simp [slice01] at h

/-- What a completed scan leaves in the variables, in terms of the tokens of
the argument list. -/
theorem scan_done {Cfg : Type} (w : World Cfg) (args : List String) (st : ScanState) :
    ∀ st1, scan w args st = .done st1 →
      st1.debug = (st.debug || debugGiven args)
      ∧ st1.logFilePath = (positionals args).foldl (fun _ a => a) st.logFilePath
      ∧ (∀ a ∈ positionals args, a ≠ "")
      ∧ (st1.configItemPath, st1.configItemValue)
          = (configRequests args).foldl applyRequest (st.configItemPath, st.configItemValue) := by
  induction args, st using scan.induct w <;> intro st1 h
  case case1 st =>
    simp only [scan] at h
    cases h
    simp [debugGiven, positionals, configRequests, tokens]
  case case2 arg rest st hs =>
    rw [scan_empty w st hs] at h
    cases h
  case case3 arg st ha hs =>
    rw [scan_config_last w st ha] at h
    cases h
  case case4 arg st ha value rest hs ih =>
    rw [scan_config w st ha] at h
    have ht : tokens (arg :: value :: rest) = .option arg value :: tokens rest :=
      tokens_option (by rcases ha with rfl | rfl <;> decide) value rest
    have := ih st1 h
    simp only [debugGiven, positionals, configRequests, ht] at this ⊢
    rcases ha with rfl | rfl <;> simpa [Token.isConfigRequest] using this
  case case5 arg st _ ha hs =>
    rw [scan_configSet_last w st ha] at h
    cases h
  case case6 arg st _ ha value rest path itemValue hp hs ih =>
    have hv : (ParseConfigExpression value).2.2 = none := by rw [hp]
    rw [scan_configSet w st ha hv] at h
    have ht : tokens (arg :: value :: rest) = .option arg value :: tokens rest :=
      tokens_option (by rcases ha with rfl | rfl <;> decide) value rest
    have := ih st1 (by simpa [hp] using h)
    simp only [debugGiven, positionals, configRequests, ht] at this ⊢
    rcases ha with rfl | rfl <;> simpa [Token.isConfigRequest, applyRequest, hp] using this
  case case7 arg st _ ha value rest p v err hp hs =>
    have hv : (ParseConfigExpression value).2.2 = some err := by rw [hp]
    rw [scan_configSet_rejected w st ha hv] at h
    cases h
  case case8 arg st _ _ ha hs =>
    rw [scan_configGet_last w st ha] at h
    cases h
  case case9 arg st _ _ ha value rest hs ih =>
    rw [scan_configGet w st ha] at h
    have ht : tokens (arg :: value :: rest) = .option arg value :: tokens rest :=
      tokens_option (by rcases ha with rfl | rfl <;> decide) value rest
    have := ih st1 h
    simp only [debugGiven, positionals, configRequests, ht] at this ⊢
    rcases ha with rfl | rfl <;> simpa [Token.isConfigRequest, applyRequest] using this
  case case10 arg rest st _ _ _ ha hs =>
    rw [scan_template w st ha] at h
    cases h
  case case11 arg rest st _ _ _ _ ha hs =>
    rw [scan_help w st ha] at h
    cases h
  case case12 arg rest st _ _ _ _ _ ha hs =>
    rw [scan_version w st ha] at h
    cases h
  case case13 arg rest st _ _ _ _ _ _ ha hs ih =>
    rw [scan_debugFlag w st ha] at h
    have ht : tokens (arg :: rest) = .flag arg :: tokens rest :=
      tokens_flag (by rcases ha with rfl | rfl <;> decide)
        (by rcases ha with rfl | rfl <;> decide) rest
    have := ih st1 h
    simp only [debugGiven, positionals, configRequests, ht] at this ⊢
    rcases ha with rfl | rfl <;> simpa [Token.isConfigRequest] using this
  case case14 arg rest st h1 h2 h3 h4 h5 h6 h7 hs =>
    rw [scan_unknown w st hs h1 h2 h3 h4 h5 h6 h7] at h
    cases h
  case case15 arg rest st first hs hf ih =>
    rw [scan_positional w st hs hf] at h
    obtain ⟨hd, hne⟩ := not_dash_of_slice01 hs hf
    have ht : tokens (arg :: rest) = .positional arg :: tokens rest :=
      tokens_positional (takesValue_false_of_not_dash hd) hd rest
    have := ih st1 h
    simp only [debugGiven, positionals, configRequests, ht] at this ⊢
    simpa [Token.isConfigRequest, hne] using this

theorem foldl_last_eq_nil_iff (l : List String) (h : ∀ a ∈ l, a ≠ "") :
    l.foldl (fun _ a => a) "" = "" ↔ l = [] := by
  induction l using List.reverseRecOn with
  | nil => simp
  | append_singleton l a _ =>
    simp only [List.foldl_append, List.foldl_cons, List.foldl_nil]
    have := h a (by simp)
    simp [this]

theorem foldl_last_eq_getLast? (l : List String) (d : String) :
    some (l.foldl (fun _ a => a) d) = (l.getLast?).orElse (fun _ => some d) := by
  induction l using List.reverseRecOn with
  | nil => simp
  | append_singleton l a _ => simp

theorem flag_mem_tokens (args : List String) :
    ∀ a, Token.flag a ∈ tokens args → a ∈ args := by
  induction args using tokens.induct with
  | case1 => simp [tokens]
  | case2 arg h => simp [tokens, h]
  | case3 arg h value rest ih =>
    intro a ha
    simp only [tokens, h, if_true, List.mem_cons] at ha
    rcases ha with ha | ha
    · cases ha
    · exact List.mem_cons_of_mem _ (List.mem_cons_of_mem _ (ih a ha))
  | case4 arg rest h hd ih =>
    intro a ha
    rw [tokens_flag (by simpa using h) hd] at ha
    rcases List.mem_cons.mp ha with ha | ha
    · cases ha
      exact List.mem_cons_self _ _
    · exact List.mem_cons_of_mem _ (ih a ha)
  | case5 arg rest h hd ih =>
    intro a ha
    rw [tokens_positional (by simpa using h) (by simpa using hd)] at ha
    rcases List.mem_cons.mp ha with ha | ha
    · cases ha
    · exact List.mem_cons_of_mem _ (ih a ha)

theorem debugGiven_false_of_not_mem (args : List String)
    (h : ∀ a ∈ args, a ≠ "-d" ∧ a ≠ "--debug") : debugGiven args = false := by
  by_contra hc
  have hc1 : debugGiven args = true := by simpa using hc
  simp only [debugGiven, List.any_eq_true, decide_eq_true_eq] at hc1
  obtain ⟨t, ht, h1 | h1⟩ := hc1
  · subst h1
    exact (h _ (flag_mem_tokens args _ ht)).1 rfl
  · subst h1
    exact (h _ (flag_mem_tokens args _ ht)).2 rfl

/-- The help text is made of lines of output only. -/
theorem printHelp_out {Cfg : Type} :
    ∀ e ∈ (PrintHelp : List (Event Cfg)), ∃ style text, e = .out style text := by
  intro e he
  simp only [PrintHelp, PrintVersion, List.mem_append, List.mem_cons, List.mem_singleton,
    List.not_mem_nil, or_false] at he
  rcases he with (he | he) | he
  · exact ⟨_, _, he⟩
  · exact ⟨_, _, he⟩
  · rcases he with he | he | he | he | he | he | he | he | he | he | he | he | he | he | he <;>
      exact ⟨_, _, he⟩

/-- When `main` returns from inside the argument loop it has only printed. -/
theorem scan_returned {Cfg : Type} (w : World Cfg) (args : List String) (st : ScanState) :
    ∀ printed, scan w args st = .returned printed →
      ∀ e ∈ printed, ∃ style text, e = .out style text := by
  induction args, st using scan.induct w <;> intro printed h
  case case1 st => simp [scan] at h
  case case2 arg rest st hs => rw [scan_empty w st hs] at h; cases h
  case case3 arg st ha hs =>
    rw [scan_config_last w st ha] at h
    cases h
    intro e he
    rcases List.mem_cons.mp he with he | he
    · exact ⟨_, _, he⟩
    · exact printHelp_out e he
  case case4 arg st ha value rest hs ih =>
    rw [scan_config w st ha] at h
    exact ih printed h
  case case5 arg st _ ha hs =>
    rw [scan_configSet_last w st ha] at h
    cases h
    intro e he
    rcases List.mem_cons.mp he with he | he
    · exact ⟨_, _, he⟩
    · exact printHelp_out e he
  case case6 arg st _ ha value rest path itemValue hp hs ih =>
    have hv : (ParseConfigExpression value).2.2 = none := by rw [hp]
    rw [scan_configSet w st ha hv] at h
    exact ih printed (by simpa [hp] using h)
  case case7 arg st _ ha value rest p v err hp hs =>
    have hv : (ParseConfigExpression value).2.2 = some err := by rw [hp]
    rw [scan_configSet_rejected w st ha hv] at h
    cases h
    intro e he
    rcases List.mem_cons.mp he with he | he
    · exact ⟨_, _, he⟩
    · exact printHelp_out e he
  case case8 arg st _ _ ha hs =>
    rw [scan_configGet_last w st ha] at h
    cases h
    intro e he
    rcases List.mem_cons.mp he with he | he
    · exact ⟨_, _, he⟩
    · exact printHelp_out e he
  case case9 arg st _ _ ha value rest hs ih =>
    rw [scan_configGet w st ha] at h
    exact ih printed h
  case case10 arg rest st _ _ _ ha hs =>
    rw [scan_template w st ha] at h
    cases h
    intro e he
    exact ⟨_, _, List.mem_singleton.mp he⟩
  case case11 arg rest st _ _ _ _ ha hs =>
    rw [scan_help w st ha] at h
    cases h
    exact printHelp_out
  case case12 arg rest st _ _ _ _ _ ha hs =>
    rw [scan_version w st ha] at h
    cases h
    intro e he
    exact ⟨_, _, List.mem_singleton.mp he⟩
  case case13 arg rest st _ _ _ _ _ _ ha hs ih =>
    rw [scan_debugFlag w st ha] at h
    exact ih printed h
  case case14 arg rest st h1 h2 h3 h4 h5 h6 h7 hs =>
    rw [scan_unknown w st hs h1 h2 h3 h4 h5 h6 h7] at h
    cases h
    intro e he
    rcases List.mem_cons.mp he with he | he
    · exact ⟨_, _, he⟩
    · exact printHelp_out e he
  case case15 arg rest st first hs hf ih =>
    rw [scan_positional w st hs hf] at h
    exact ih printed h

/-- The scan panics only on an empty argument. -/
theorem scan_no_panic {Cfg : Type} (w : World Cfg) (args : List String) (st : ScanState) :
    (∀ a ∈ args, a ≠ "") → ∀ p, scan w args st ≠ .panicked p := by
  induction args, st using scan.induct w <;> intro hne p h
  case case1 st => simp [scan] at h
  case case2 arg rest st hs =>
    have : arg = "" := by
      rcases arg with ⟨_ | ⟨c, cs⟩⟩
      · rfl
      · simp [slice01] at hs
    exact hne arg (List.mem_cons_self _ _) this
  case case3 arg st ha hs => rw [scan_config_last w st ha] at h; cases h
  case case4 arg st ha value rest hs ih =>
    rw [scan_config w st ha] at h
    exact ih (fun a m => hne a (by simp [m])) p h
  case case5 arg st _ ha hs => rw [scan_configSet_last w st ha] at h; cases h
  case case6 arg st _ ha value rest path itemValue hp hs ih =>
    have hv : (ParseConfigExpression value).2.2 = none := by rw [hp]
    rw [scan_configSet w st ha hv] at h
    exact ih (fun a m => hne a (by simp [m])) p (by simpa [hp] using h)
  case case7 arg st _ ha value rest p1 v err hp hs =>
    have hv : (ParseConfigExpression value).2.2 = some err := by rw [hp]
    rw [scan_configSet_rejected w st ha hv] at h
    cases h
  case case8 arg st _ _ ha hs => rw [scan_configGet_last w st ha] at h; cases h
  case case9 arg st _ _ ha value rest hs ih =>
    rw [scan_configGet w st ha] at h
    exact ih (fun a m => hne a (by simp [m])) p h
  case case10 arg rest st _ _ _ ha hs => rw [scan_template w st ha] at h; cases h
  case case11 arg rest st _ _ _ _ ha hs => rw [scan_help w st ha] at h; cases h
  case case12 arg rest st _ _ _ _ _ ha hs => rw [scan_version w st ha] at h; cases h
  case case13 arg rest st _ _ _ _ _ _ ha hs ih =>
    rw [scan_debugFlag w st ha] at h
    exact ih (fun a m => hne a (by simp [m])) p h
  case case14 arg rest st h1 h2 h3 h4 h5 h6 h7 hs =>
    rw [scan_unknown w st hs h1 h2 h3 h4 h5 h6 h7] at h
    cases h
  case case15 arg rest st first hs hf ih =>
    rw [scan_positional w st hs hf] at h
    exact ih (fun a m => hne a (by simp [m])) p h

/-- The scan passes over a prefix of accepted arguments and goes on with the
arguments that follow. -/
theorem scan_passed {Cfg : Type} (w : World Cfg) {pre : List String} (hpre : Passed pre)
    (rest : List String) :
    ∀ st, ∃ st1, scan w (pre ++ rest) st = scan w rest st1 := by
  induction hpre with
  | nil => exact fun st => ⟨st, rfl⟩
  | positional arg tl hne hd _ ih =>
    intro st
    have hs : ∃ first, slice01 arg = some first ∧ first ≠ "-" := by
      rcases arg with ⟨_ | ⟨c, cs⟩⟩
      · exact absurd rfl hne
      · refine ⟨String.mk [c], rfl, ?_⟩
        intro hc
        have hd1 : beginsWithDash (String.mk (c :: cs)) = true :=
          (slice01_eq_dash _).mp (by simp [slice01, hc])
        rw [hd] at hd1
        cases hd1
    obtain ⟨first, hs, hf⟩ := hs
    obtain ⟨st1, h1⟩ := ih { st with logFilePath := arg }
    exact ⟨st1, by rw [List.cons_append, scan_positional w st hs hf, h1]⟩
  | debug arg tl ha _ ih =>
    intro st
    obtain ⟨st1, h1⟩ := ih { st with debug := true }
    exact ⟨st1, by rw [List.cons_append, scan_debugFlag w st ha, h1]⟩
  | config arg value tl ha _ ih =>
    intro st
    obtain ⟨st1, h1⟩ := ih { st with configFilePath := value }
    exact ⟨st1, by rw [List.cons_append, List.cons_append, scan_config w st ha, h1]⟩
  | configSet arg value tl ha hv _ ih =>
    intro st
    obtain ⟨st1, h1⟩ := ih { st with configItemPath := (ParseConfigExpression value).1,
                                     configItemValue := (ParseConfigExpression value).2.1 }
    exact ⟨st1, by rw [List.cons_append, List.cons_append, scan_configSet w st ha hv, h1]⟩
  | configGet arg value tl ha _ ih =>
    intro st
    obtain ⟨st1, h1⟩ := ih { st with configItemPath := value }
    exact ⟨st1, by rw [List.cons_append, List.cons_append, scan_configGet w st ha, h1]⟩

/-! ## The body of `main` -/

section Body

variable {Cfg : Type} (w : World Cfg) (st : ScanState)

theorem process_panic_iff (cfg : Cfg) (p : String) :
    .panic p ∈ (process w st cfg).trace ↔ (process w st cfg).panic = some p := by
  unfold process
  split <;> split <;> simp [eq_comm]

theorem process_not_set (cfg : Cfg) : ∀ e ∈ (process w st cfg).trace, e.isSet = false := by
  unfold process
  split <;> split <;> simp [Event.isSet]

theorem configItem_panic_iff (cfg : Cfg) (p : String) :
    .panic p ∈ (configItem w st cfg).trace ↔ (configItem w st cfg).panic = some p := by
  unfold configItem
  split
  · split
    · split
      · simp [eq_comm]
      · simpa using process_panic_iff w st _ p
    · split <;> simp [eq_comm]
  · exact process_panic_iff w st cfg p

theorem body_panic_iff (p : String) :
    .panic p ∈ (body w st).trace ↔ (body w st).panic = some p := by
  unfold body
  split
  · simp [eq_comm]
  · split
    · simp [eq_comm]
    · simpa using configItem_panic_iff w st _ p

theorem body_ok {cfg : Cfg} (hlog : w.InitLogger = .ok ())
    (hcfg : ReadConfig w st.configFilePath = .ok cfg) :
    body w st = ⟨.InitLogger :: .ReadConfig st.configFilePath
                  :: (configItem w st cfg).trace ++ [.Close], (configItem w st cfg).panic⟩ := by
  simp [body, hlog, hcfg]

theorem length_pos_iff (s : String) : s.length > 0 ↔ s ≠ "" := by
  rcases s with ⟨_ | ⟨c, cs⟩⟩
  · simp [String.length]
  · simp only [String.length, List.length_cons, gt_iff_lt, Nat.zero_lt_succ, ne_eq, true_iff]
    intro h
    have := congrArg String.data h
    simp at this

theorem length_zero_iff (s : String) : s.length = 0 ↔ s = "" := by
  have := length_pos_iff s
  constructor
  · intro h
    by_contra hc
    have := this.mpr hc
    omega
  · rintro rfl
    rfl

theorem process_processing (cfg : Cfg) {e : Event Cfg} (he : e ∈ (process w st cfg).trace)
    (hp : e.isProcessing = true) :
    (st.logFilePath.length = 0 ∧ e = .ProcessReader cfg)
      ∨ (st.logFilePath.length ≠ 0 ∧ e = .ProcessLocalFile cfg st.logFilePath) := by
  unfold process at he
  split at he
  · left
    split at he <;> simp at he <;>
      rcases he with rfl | rfl | rfl <;> simp_all [Event.isProcessing]
  · right
    split at he <;> simp at he <;>
      rcases he with rfl | rfl | rfl <;> simp_all [Event.isProcessing]

theorem configItem_processing (cfg : Cfg) {e : Event Cfg}
    (he : e ∈ (configItem w st cfg).trace) (hp : e.isProcessing = true) :
    (st.configItemPath.length > 0 → st.configItemValue.length > 0)
    ∧ ∃ cfg1, (st.logFilePath.length = 0 ∧ e = .ProcessReader cfg1)
      ∨ (st.logFilePath.length ≠ 0 ∧ e = .ProcessLocalFile cfg1 st.logFilePath) := by
  unfold configItem at he
  split at he
  · split at he
    · refine ⟨fun _ => by assumption, ?_⟩
      split at he
      · simp at he
        rcases he with rfl | rfl <;> simp [Event.isProcessing] at hp
      · simp only [List.mem_cons] at he
        rcases he with rfl | he
        · simp [Event.isProcessing] at hp
        · exact ⟨_, process_processing w st _ he hp⟩
    · split at he <;> simp at he <;>
        rcases he with rfl | rfl <;> simp [Event.isProcessing] at hp
  · exact ⟨fun h => absurd h (by assumption), _, process_processing w st _ he hp⟩

/-- A run reaches the stream processor only past the config item request, and
the input is then chosen by `logFilePath`. -/
theorem body_processing {e : Event Cfg} (he : e ∈ (body w st).trace)
    (hp : e.isProcessing = true) :
    (st.configItemPath.length > 0 → st.configItemValue.length > 0)
    ∧ ∃ cfg, (st.logFilePath.length = 0 ∧ e = .ProcessReader cfg)
      ∨ (st.logFilePath.length ≠ 0 ∧ e = .ProcessLocalFile cfg st.logFilePath) := by
  unfold body at he
  split at he
  · simp at he
    rcases he with rfl | rfl <;> simp [Event.isProcessing] at hp
  · split at he
    · simp at he
      rcases he with rfl | rfl | rfl | rfl <;> simp [Event.isProcessing] at hp
    · simp only [List.cons_append, List.mem_cons, List.mem_append, List.mem_singleton,
        List.not_mem_nil, or_false] at he
      rcases he with rfl | rfl | he | rfl
      · simp [Event.isProcessing] at hp
      · simp [Event.isProcessing] at hp
      · exact configItem_processing w st _ he hp
      · simp [Event.isProcessing] at hp

end Body

/-! ## Runs of `main` -/

section Main

variable {Cfg : Type} (w : World Cfg) (Args : List String)

theorem main_done {st : ScanState} (h : scan w (Args.drop 1) {} = .done st) :
    main w Args =
      match (body w st).panic with
      | none => ⟨(body w st).trace, .exit 0⟩
      | some p =>
        if st.debug then ⟨(body w st).trace, .crash⟩
        else ⟨(body w st).trace ++ [.out .red (p ++ "\n\n")], .exit 1⟩ := by
  simp only [main, h]

theorem main_returned {printed : List (Event Cfg)}
    (h : scan w (Args.drop 1) {} = .returned printed) :
    main w Args = ⟨printed, .exit 0⟩ := by
  simp only [main, h]

theorem main_panicked {p : String}
    (h : scan w (Args.drop 1) {} = .panicked p) :
    main w Args = ⟨[.panic p], .crash⟩ := by
  simp only [main, h]

/-- The trace of a run whose scan completes is the trace of the body, followed
by the report of the recovered panic if there is one. -/
theorem main_trace_done {st : ScanState}
    (h : scan w (Args.drop 1) {} = .done st) :
    ∃ tail, (main w Args).trace = (body w st).trace ++ tail
      ∧ ∀ e ∈ tail, ∃ style text, e = .out style text := by
  rw [main_done w Args h]
  split
  · exact ⟨[], by simp⟩
  · split
    · exact ⟨[], by simp⟩
    · exact ⟨_, rfl, by simp⟩

theorem main_processing {e : Event Cfg} (he : e ∈ (main w Args).trace)
    (hp : e.isProcessing = true) :
    ∃ st, scan w (Args.drop 1) {} = .done st
      ∧ (st.configItemPath.length > 0 → st.configItemValue.length > 0)
      ∧ ∃ cfg, (st.logFilePath.length = 0 ∧ e = .ProcessReader cfg)
        ∨ (st.logFilePath.length ≠ 0 ∧ e = .ProcessLocalFile cfg st.logFilePath) := by
  rcases hs : scan w (Args.drop 1) {} with st | printed | p
  · obtain ⟨tail, ht, hout⟩ := main_trace_done w Args hs
    rw [ht] at he
    rcases List.mem_append.mp he with he | he
    · exact ⟨st, rfl, body_processing w st he hp⟩
    · obtain ⟨_, _, rfl⟩ := hout e he
      simp [Event.isProcessing] at hp
  · rw [main_returned w Args hs] at he
    obtain ⟨_, _, rfl⟩ := scan_returned w _ _ printed hs e he
    simp [Event.isProcessing] at hp
  · rw [main_panicked w Args hs] at he
    rw [List.mem_singleton.mp he] at hp
    simp [Event.isProcessing] at hp

end Main

/-! ## The claims on `main` -/

section Claims

variable {Cfg : Type}

/-- C1 (failing input): the argument list `jog ""` contains neither `-d` nor
`--debug`, yet in every world the run ends in an unrecovered panic: the test
`arg[0:1]` fails on the empty argument while the handler with `recover` is not
yet deferred, so nothing catches it. -/
theorem empty_argument_not_recovered (w : World Cfg) :
    (∀ a ∈ ["jog", ""], a ≠ "-d" ∧ a ≠ "--debug")
    ∧ scan w (["jog", ""].drop 1) {}
        = .panicked "runtime error: slice bounds out of range [:1] with length 0"
    ∧ main w ["jog", ""]
        = ⟨[.panic "runtime error: slice bounds out of range [:1] with length 0"],
            .crash⟩ := by
  have hs : slice01 "" = none := rfl
  exact ⟨by decide, scan_empty w {} hs [], main_panicked w _ (scan_empty w {} hs [])⟩

/-- Apart from a panic of the scan itself, a run without `-d` and `--debug`
never ends in an unrecovered panic: every panic of the run is raised after
the argument scan has completed, it is caught by the top-level `recover`,
reported in red as the last output, and the process exits with status 1. -/
theorem no_crash_without_debug (w : World Cfg) (Args : List String)
    (hd : ∀ a ∈ Args.drop 1, a ≠ "-d" ∧ a ≠ "--debug")
    (he : ∀ q, scan w (Args.drop 1) {} ≠ .panicked q) :
    (main w Args).outcome ≠ .crash
    ∧ ∀ p, .panic p ∈ (main w Args).trace →
        (∃ st, scan w (Args.drop 1) {} = .done st ∧ .panic p ∈ (body w st).trace)
        ∧ (main w Args).trace.getLast? = some (.out .red (p ++ "\n\n"))
        ∧ (main w Args).outcome = .exit 1 := by
  rcases hs : scan w (Args.drop 1) {} with st | printed | q
  · have hdbg : st.debug = false := by
      rw [(scan_done w _ _ st hs).1, debugGiven_false_of_not_mem _ hd]
      rfl
    rw [main_done w Args hs]
    rcases hb : (body w st).panic with _ | q
    · refine ⟨by simp, ?_⟩
      intro p hp
      have := (body_panic_iff w st p).mp hp
      rw [hb] at this
      cases this
    · simp only [hdbg, Bool.false_eq_true, if_false]
      refine ⟨by simp, ?_⟩
      intro p hp
      have hp1 : .panic p ∈ (body w st).trace := by
        rcases List.mem_append.mp hp with h | h
        · exact h
        · simp at h
      have := (body_panic_iff w st p).mp hp1
      rw [hb] at this
      cases this
      refine ⟨⟨st, rfl, hp1⟩, ?_, ?_⟩ <;> simp
  · rw [main_returned w Args hs]
    refine ⟨by simp, ?_⟩
    intro p hp
    obtain ⟨_, _, h⟩ := scan_returned w _ _ printed hs _ hp
    cases h
  · exact absurd hs (he q)

/-- C2 (counterexample): in `jog -c -d` the argument `-d` occurs, the scan
completes (with `-d` as the config file path), the logger initialisation
panics, and the panic is recovered: the process exits with status 1. -/
theorem debug_as_value_is_recovered :
    "-d" ∈ ["jog", "-c", "-d"]
    ∧ scan World.noLogger (["jog", "-c", "-d"].drop 1) {} = .done { configFilePath := "-d" }
    ∧ (body World.noLogger { configFilePath := "-d" }).panic = some "cannot open log file"
    ∧ main World.noLogger ["jog", "-c", "-d"]
        = ⟨[.InitLogger, .panic "cannot open log file",
            .out .red "cannot open log file\n\n"], .exit 1⟩ := by
  decide

/-- C2 (amended): for every argument list whose scan completes, a panic raised
by logger initialisation, config reading, the config get/set call or stream
processing is handled according to the debug flag alone.  When neither `-d`
nor `--debug` occurs in the list it is recovered, reported, and the process
exits with status 1.  When `-d` or `--debug` occurs at a position where it is
not consumed as the value of `-c`, `-cset` or `-cget`, it is not recovered and
propagates; when it occurs only as such a value, it is recovered. -/
theorem panic_handling_follows_debug (w : World Cfg) (Args : List String) (st : ScanState)
    (p : String) (hscan : scan w (Args.drop 1) {} = .done st)
    (hp : (body w st).panic = some p) :
    ((∀ a ∈ Args.drop 1, a ≠ "-d" ∧ a ≠ "--debug") →
        main w Args = ⟨(body w st).trace ++ [.out .red (p ++ "\n\n")], .exit 1⟩)
    ∧ (debugGiven (Args.drop 1) = true → main w Args = ⟨(body w st).trace, .crash⟩)
    ∧ (debugGiven (Args.drop 1) = false →
        main w Args = ⟨(body w st).trace ++ [.out .red (p ++ "\n\n")], .exit 1⟩)
    ∧ st.debug = debugGiven (Args.drop 1) := by
  have hdbg : st.debug = debugGiven (Args.drop 1) := by
    rw [(scan_done w _ _ st hscan).1]
    rfl
  have hmain := main_done w Args hscan
  rw [hp] at hmain
  simp only at hmain
  refine ⟨?_, ?_, ?_, hdbg⟩
  · intro h
    rw [hmain, hdbg, debugGiven_false_of_not_mem _ h]
    simp
  · intro h
    rw [hmain, hdbg, h]
    simp
  · intro h
    rw [hmain, hdbg, h]
    simp

/-- Witness of C2 (amended): `jog -d missing.log` in a world where the file
cannot be read; the panic propagates. -/
theorem panic_handling_follows_debug_witness :
    debugGiven (["jog", "-d", "missing.log"].drop 1) = true
    ∧ main World.noFile ["jog", "-d", "missing.log"]
        = ⟨(body World.noFile { logFilePath := "missing.log", debug := true }).trace, .crash⟩ :=
  ⟨by decide,
   (panic_handling_follows_debug World.noFile ["jog", "-d", "missing.log"]
      { logFilePath := "missing.log", debug := true } "open missing.log: no such file"
      (by decide) (by decide)).2.1 (by decide)⟩

theorem configItem_set (w : World Cfg) (st : ScanState) (cfg : Cfg)
    (hp : st.configItemPath.length > 0) (hv : st.configItemValue.length > 0) :
    ∃ tl, (configItem w st cfg).trace
        = .Set cfg st.configItemPath st.configItemValue :: tl
      ∧ ∀ e ∈ tl, e.isSet = false := by
  unfold configItem
  simp only [hp, hv, if_true]
  split
  · exact ⟨_, rfl, by simp [Event.isSet]⟩
  · exact ⟨_, rfl, process_not_set w st _⟩

theorem scan_single_request (w : World Cfg) {args : List String} {st : ScanState}
    {o e : String} (hreq : configRequests args = [.option o e])
    (hscan : scan w args {} = .done st) :
    (st.configItemPath, st.configItemValue) = applyRequest ("", "") (.option o e) := by
  have h := (scan_done w args {} st hscan).2.2.2
  rw [hreq] at h
  simpa using h

/-- C5 (counterexample): `jog -cset a=` is a set request with the empty value;
the scan completes and `jsonpath.Set` is never invoked (the item is read and
printed instead). -/
theorem set_with_empty_value_not_set :
    configRequests (["jog", "-cset", "a="].drop 1) = [.option "-cset" ("a" ++ "=" ++ "")]
    ∧ scan World.quiet (["jog", "-cset", "a="].drop 1) {} = .done { configItemPath := "a" }
    ∧ main World.quiet ["jog", "-cset", "a="]
        = ⟨[.InitLogger, .ReadConfig "", .Get "default" "a", .out .plain "default.a\n",
            .Close], .exit 0⟩ := by
  decide

/-- C5 (amended): for every argument list whose only config request is
`-cset p=v` or `--config-set p=v` with `p` and `v` non-empty strings without
`=`, whose scan completes and on which the logger initialisation and the
config reading return, `main` invokes `jsonpath.Set` exactly once, with the
loaded config, the path `p` and the string `v` as given, right after the config
is read and so before any stream processing. -/
theorem set_request_invokes_Set (w : World Cfg) (Args : List String) (o p v : String)
    (st : ScanState) (cfg : Cfg)
    (ho : o = "-cset" ∨ o = "--config-set")
    (hreq : configRequests (Args.drop 1) = [.option o (p ++ "=" ++ v)])
    (hp : p ≠ "") (hv : v ≠ "") (hpe : '=' ∉ p.data) (hve : '=' ∉ v.data)
    (hscan : scan w (Args.drop 1) {} = .done st)
    (hlog : w.InitLogger = .ok ()) (hcfg : ReadConfig w st.configFilePath = .ok cfg) :
    ∃ rest, (main w Args).trace
        = .InitLogger :: .ReadConfig st.configFilePath :: .Set cfg p v :: rest
      ∧ ∀ e ∈ rest, e.isSet = false := by
  have hst := scan_single_request w hreq hscan
  simp only [applyRequest, ho, if_true, parse_join hpe hve, Prod.mk.injEq] at hst
  obtain ⟨hpath, hvalue⟩ := hst
  have hp1 : st.configItemPath.length > 0 := by rw [hpath]; exact (length_pos_iff p).mpr hp
  have hv1 : st.configItemValue.length > 0 := by rw [hvalue]; exact (length_pos_iff v).mpr hv
  obtain ⟨tl, htl, hset⟩ := configItem_set w st cfg hp1 hv1
  obtain ⟨tail, ht, hout⟩ := main_trace_done w Args hscan
  rw [body_ok w st hlog hcfg] at ht
  refine ⟨tl ++ [.Close] ++ tail, ?_, ?_⟩
  · rw [ht]
    simp only [htl, hpath, hvalue, List.cons_append, List.append_assoc]
  · intro e he
    simp only [List.mem_append, List.mem_singleton] at he
    rcases he with (he | rfl) | he
    · exact hset e he
    · rfl
    · obtain ⟨_, _, rfl⟩ := hout e he
      rfl

/-- Witness of C5 (amended): `jog --config-set level.color=red app.log`. -/
theorem set_request_invokes_Set_witness :
    ∃ rest, (main World.quiet ["jog", "--config-set", "level.color=red", "app.log"]).trace
        = .InitLogger :: .ReadConfig "" :: .Set "default" "level.color" "red" :: rest
      ∧ ∀ e ∈ rest, e.isSet = false :=
  set_request_invokes_Set World.quiet ["jog", "--config-set", "level.color=red", "app.log"]
    "--config-set" "level.color" "red"
    { logFilePath := "app.log", configItemPath := "level.color", configItemValue := "red" }
    "default"
    (by decide) (by decide) (by decide) (by decide) (by decide) (by decide) (by decide)
    rfl rfl

/-- C6 (counterexample): `jog -cget a` has the single config request `-cget a`
and its scan completes, but where the logger cannot be initialised `main`
neither calls nor prints `jsonpath.Get`: the panic is recovered and the process
exits with status 1. -/
theorem get_request_without_logger_prints_nothing :
    configRequests (["jog", "-cget", "a"].drop 1) = [.option "-cget" "a"]
    ∧ scan World.noLogger (["jog", "-cget", "a"].drop 1) {} = .done { configItemPath := "a" }
    ∧ main World.noLogger ["jog", "-cget", "a"]
        = ⟨[.InitLogger, .panic "cannot open log file",
            .out .red "cannot open log file\n\n"], .exit 1⟩ := by
  decide

/-- C6 (amended): for every argument list whose only config request is
`-cget p` or `--config-get p` with `p` non-empty and whose scan completes,
`main` performs no stream processing (neither `ProcessReader` nor
`ProcessLocalFile` is invoked, whatever log file path is given); and when the
logger initialisation, the config reading and `jsonpath.Get` return, it prints
`jsonpath.Get(cfg, p)` and returns, with status 0. -/
theorem get_request_prints_and_returns (w : World Cfg) (Args : List String) (o p : String)
    (st : ScanState)
    (ho : o = "-cget" ∨ o = "--config-get")
    (hreq : configRequests (Args.drop 1) = [.option o p])
    (hp : p ≠ "")
    (hscan : scan w (Args.drop 1) {} = .done st) :
    (∀ e ∈ (main w Args).trace, e.isProcessing = false)
    ∧ (∀ cfg text, w.InitLogger = .ok () → ReadConfig w st.configFilePath = .ok cfg →
        w.Get cfg p = .ok text →
        main w Args = ⟨[.InitLogger, .ReadConfig st.configFilePath, .Get cfg p,
                        .out .plain (text ++ "\n"), .Close], .exit 0⟩) := by
  have hst := scan_single_request w hreq hscan
  have hno : ¬(o = "-cset" ∨ o = "--config-set") := by
    rcases ho with rfl | rfl <;> decide
  simp only [applyRequest, hno, if_false, Prod.mk.injEq] at hst
  obtain ⟨hpath, hvalue⟩ := hst
  have hp1 : st.configItemPath.length > 0 := by rw [hpath]; exact (length_pos_iff p).mpr hp
  have hv0 : ¬ st.configItemValue.length > 0 := by rw [hvalue]; decide
  constructor
  · intro e he
    by_contra hc
    have hc1 : e.isProcessing = true := by simpa using hc
    obtain ⟨st1, hs1, himp, _⟩ := main_processing w Args he hc1
    rw [hscan] at hs1
    cases hs1
    exact hv0 (himp hp1)
  · intro cfg text hlog hcfg hget
    have hci : configItem w st cfg
        = ⟨[.Get cfg p, .out .plain (text ++ "\n")], none⟩ := by
      have hp2 : p.length > 0 := (length_pos_iff p).mpr hp
      unfold configItem
      simp only [hv0, if_false, hpath, hp2, if_true, hget]
    rw [main_done w Args hscan, body_ok w st hlog hcfg, hci]
    rfl

/-- Witness of C6 (amended): `jog app.log -cget level.color` prints the item and does
not read `app.log`. -/
theorem get_request_prints_and_returns_witness :
    (∀ e ∈ (main World.quiet ["jog", "app.log", "-cget", "level.color"]).trace,
        e.isProcessing = false)
    ∧ main World.quiet ["jog", "app.log", "-cget", "level.color"]
        = ⟨[.InitLogger, .ReadConfig "", .Get "default" "level.color",
            .out .plain ("default.level.color" ++ "\n"), .Close], .exit 0⟩ :=
  ⟨(get_request_prints_and_returns World.quiet ["jog", "app.log", "-cget", "level.color"]
      "-cget" "level.color" { logFilePath := "app.log", configItemPath := "level.color" }
      (by decide) (by decide) (by decide) (by decide)).1,
   (get_request_prints_and_returns World.quiet ["jog", "app.log", "-cget", "level.color"]
      "-cget" "level.color" { logFilePath := "app.log", configItemPath := "level.color" }
      (by decide) (by decide) (by decide) (by decide)).2 "default" "default.level.color"
      rfl rfl rfl⟩

theorem process_event_iff (w : World Cfg) (st : ScanState) (cfg : Cfg) (e : Event Cfg) :
    (e ∈ (process w st cfg).trace ∧ e.isProcessing = true)
      ↔ e = (if st.logFilePath.length = 0 then .ProcessReader cfg
             else .ProcessLocalFile cfg st.logFilePath) := by
  constructor
  · rintro ⟨he, hp⟩
    rcases process_processing w st cfg he hp with ⟨h0, rfl⟩ | ⟨h0, rfl⟩
    · rw [if_pos h0]
    · rw [if_neg h0]
  · intro he
    subst he
    by_cases h0 : st.logFilePath.length = 0
    · simp only [h0, if_true]
      refine ⟨?_, rfl⟩
      unfold process
      simp only [h0, if_true]
      split <;> simp
    · simp only [h0, if_false]
      refine ⟨?_, rfl⟩
      unfold process
      simp only [h0, if_false]
      split <;> simp

/-- Past the config item request the run goes on with the stream processing:
directly when there is no request, after `jsonpath.Set` has returned when the
request is a set. -/
theorem configItem_reached (w : World Cfg) (st : ScanState) (cfg cfg1 : Cfg)
    (hitem : (st.configItemPath.length = 0 ∧ cfg1 = cfg)
      ∨ (st.configItemPath.length > 0 ∧ st.configItemValue.length > 0
          ∧ w.Set cfg st.configItemPath st.configItemValue = .ok cfg1)) :
    ∃ pre, (configItem w st cfg).trace = pre ++ (process w st cfg1).trace
      ∧ ∀ e ∈ pre, e.isProcessing = false := by
  rcases hitem with ⟨h0, rfl⟩ | ⟨hp, hv, hset⟩
  · refine ⟨[], ?_, by simp⟩
    unfold configItem
    have : ¬ st.configItemPath.length > 0 := by omega
    simp only [this, if_false, List.nil_append]
  · refine ⟨[.Set cfg st.configItemPath st.configItemValue], ?_, by simp [Event.isProcessing]⟩
    unfold configItem
    simp only [hp, hv, if_true, hset, List.singleton_append]

/-- The calls into the stream processor of a run that reaches line 168: there
is exactly one, chosen by `logFilePath`. -/
theorem main_processing_events (w : World Cfg) (Args : List String)
    (st : ScanState) (cfg cfg1 : Cfg)
    (hscan : scan w (Args.drop 1) {} = .done st)
    (hlog : w.InitLogger = .ok ())
    (hcfg : ReadConfig w st.configFilePath = .ok cfg)
    (hitem : (st.configItemPath.length = 0 ∧ cfg1 = cfg)
      ∨ (st.configItemPath.length > 0 ∧ st.configItemValue.length > 0
          ∧ w.Set cfg st.configItemPath st.configItemValue = .ok cfg1))
    (e : Event Cfg) :
    (e ∈ (main w Args).trace ∧ e.isProcessing = true)
      ↔ e = (if st.logFilePath.length = 0 then .ProcessReader cfg1
             else .ProcessLocalFile cfg1 st.logFilePath) := by
  obtain ⟨tail, ht, hout⟩ := main_trace_done w Args hscan
  obtain ⟨pre, hpre, hnp⟩ := configItem_reached w st cfg cfg1 hitem
  rw [body_ok w st hlog hcfg] at ht
  simp only [hpre] at ht
  rw [← process_event_iff w st cfg1 e, ht]
  constructor
  · rintro ⟨he, hp⟩
    refine ⟨?_, hp⟩
    simp only [List.cons_append, List.mem_cons, List.mem_append, List.mem_singleton,
      List.not_mem_nil, or_false] at he
    rcases he with rfl | rfl | ((he | he) | rfl) | he
    · simp [Event.isProcessing] at hp
    · simp [Event.isProcessing] at hp
    · rw [hnp e he] at hp
      cases hp
    · exact he
    · simp [Event.isProcessing] at hp
    · obtain ⟨_, _, rfl⟩ := hout e he
      simp [Event.isProcessing] at hp
  · rintro ⟨he, hp⟩
    refine ⟨?_, hp⟩
    simp only [List.cons_append, List.mem_cons, List.mem_append, List.mem_singleton,
      List.not_mem_nil, or_false]
    exact Or.inr (Or.inr (Or.inl (Or.inl (Or.inr he))))

/-- C7: for every argument list that reaches stream processing (the scan
completes, the logger initialisation and the config reading return, and the
config item request, if any, is a set whose `jsonpath.Set` returns), `main`
reads from standard input (`ProcessReader` on `os.Stdin`) if and only if the
list contains no positional argument (one that does not begin with `-` and is
not consumed as the value of `-c`, `-cset` or `-cget`).  Without a positional
argument its one call into the stream processor is `ProcessReader`; otherwise
it is `ProcessLocalFile` on the last positional argument. -/
theorem input_is_stdin_iff_no_positional (w : World Cfg) (Args : List String)
    (st : ScanState) (cfg cfg1 : Cfg)
    (hscan : scan w (Args.drop 1) {} = .done st)
    (hlog : w.InitLogger = .ok ())
    (hcfg : ReadConfig w st.configFilePath = .ok cfg)
    (hitem : (st.configItemPath.length = 0 ∧ cfg1 = cfg)
      ∨ (st.configItemPath.length > 0 ∧ st.configItemValue.length > 0
          ∧ w.Set cfg st.configItemPath st.configItemValue = .ok cfg1)) :
    ((∃ c, .ProcessReader c ∈ (main w Args).trace) ↔ positionals (Args.drop 1) = [])
    ∧ (positionals (Args.drop 1) = [] →
        ∀ e, (e ∈ (main w Args).trace ∧ e.isProcessing = true) ↔ e = .ProcessReader cfg1)
    ∧ (positionals (Args.drop 1) ≠ [] →
        ∃ file, (positionals (Args.drop 1)).getLast? = some file
          ∧ ∀ e, (e ∈ (main w Args).trace ∧ e.isProcessing = true)
              ↔ e = .ProcessLocalFile cfg1 file) := by
  have hev := main_processing_events w Args st cfg cfg1 hscan hlog hcfg hitem
  obtain ⟨_, hpath, hne, _⟩ := scan_done w _ _ st hscan
  have hzero : st.logFilePath.length = 0 ↔ positionals (Args.drop 1) = [] := by
    rw [length_zero_iff, hpath]
    exact foldl_last_eq_nil_iff _ hne
  have hlast : positionals (Args.drop 1) ≠ [] →
      (positionals (Args.drop 1)).getLast? = some st.logFilePath := by
    intro hnil
    have h := foldl_last_eq_getLast? (positionals (Args.drop 1)) ""
    rw [← hpath] at h
    rcases hl : (positionals (Args.drop 1)).getLast? with _ | f
    · exact absurd (List.getLast?_eq_none_iff.mp hl) hnil
    · rw [hl] at h
      simpa using h.symm
  refine ⟨⟨?_, ?_⟩, ?_, ?_⟩
  · rintro ⟨c, hmem⟩
    by_contra hnil
    have h0 : ¬ st.logFilePath.length = 0 := fun h => hnil (hzero.mp h)
    have := (hev (.ProcessReader c)).mp ⟨hmem, rfl⟩
    rw [if_neg h0] at this
    cases this
  · intro hnil
    refine ⟨cfg1, ((hev (.ProcessReader cfg1)).mpr ?_).1⟩
    rw [if_pos (hzero.mpr hnil)]
  · intro hnil e
    rw [hev e, if_pos (hzero.mpr hnil)]
  · intro hnil
    refine ⟨st.logFilePath, hlast hnil, fun e => ?_⟩
    rw [hev e, if_neg (fun h => hnil (hzero.mp h))]

/-- Witness of C7: `jog -d` reads standard input; in
`jog -c my.yaml a.log -cset k=v b.log` the positional arguments are `a.log` and
`b.log`, and the file processed, after the set, is `b.log`. -/
theorem input_is_stdin_iff_no_positional_witness :
    (positionals (["jog", "-d"].drop 1) = []
      ∧ ∀ e, (e ∈ (main World.quiet ["jog", "-d"]).trace ∧ e.isProcessing = true)
          ↔ e = .ProcessReader "default")
    ∧ (positionals (["jog", "-c", "my.yaml", "a.log", "-cset", "k=v", "b.log"].drop 1) ≠ []
      ∧ ∃ file,
          (positionals
              (["jog", "-c", "my.yaml", "a.log", "-cset", "k=v", "b.log"].drop 1)).getLast?
            = some file
          ∧ ∀ e, (e ∈ (main World.quiet
                    ["jog", "-c", "my.yaml", "a.log", "-cset", "k=v", "b.log"]).trace
                  ∧ e.isProcessing = true)
              ↔ e = .ProcessLocalFile "my.yaml;k=v" file) :=
  ⟨⟨by decide,
    (input_is_stdin_iff_no_positional World.quiet ["jog", "-d"] { debug := true }
      "default" "default" (by decide) rfl rfl (Or.inl ⟨by decide, rfl⟩)).2.1 (by decide)⟩,
   ⟨by decide,
    (input_is_stdin_iff_no_positional World.quiet
      ["jog", "-c", "my.yaml", "a.log", "-cset", "k=v", "b.log"]
      { configFilePath := "my.yaml", logFilePath := "b.log", configItemPath := "k", configItemValue := "v" }
      "my.yaml" "my.yaml;k=v" (by decide) rfl rfl
      (Or.inr ⟨by decide, by decide, rfl⟩)).2.2 (by decide)⟩⟩

/-- C8: `main` exits with a non-zero status only on a fatal failure.  For every
argument list, if no panic is raised the process ends with status 0; in
particular every run in which `main` returns from inside the argument handling
(unknown option, missing value after `-c`/`-cset`/`-cget`, config item
expression rejected by `ParseConfigExpression`, `-t`, `-h`, `-V`) ends with
status 0, having only printed. -/
theorem exit_status_zero_without_panic (w : World Cfg) (Args : List String) :
    ((∀ e ∈ (main w Args).trace, e.isPanic = false) → (main w Args).outcome = .exit 0)
    ∧ (∀ printed, scan w (Args.drop 1) {} = .returned printed →
        main w Args = ⟨printed, .exit 0⟩ ∧ ∀ e ∈ printed, e.isPanic = false) := by
  constructor
  · intro h
    rcases hs : scan w (Args.drop 1) {} with st | printed | q
    · rcases hb : (body w st).panic with _ | q
      · rw [main_done w Args hs, hb]
      · obtain ⟨tail, ht, _⟩ := main_trace_done w Args hs
        have hmem : Event.panic q ∈ (main w Args).trace := by
          rw [ht]
          exact List.mem_append_left _ ((body_panic_iff w st q).mpr hb)
        have := h _ hmem
        simp [Event.isPanic] at this
    · rw [main_returned w Args hs]
    · have := h (.panic q) (by rw [main_panicked w Args hs]; simp)
      simp [Event.isPanic] at this
  · intro printed hs
    refine ⟨main_returned w Args hs, ?_⟩
    intro e he
    obtain ⟨_, _, rfl⟩ := scan_returned w _ _ printed hs e he
    rfl

/-- Witness of C8: `jog --frobnicate` (an unknown option) raises no panic and
ends with status 0. -/
theorem exit_status_zero_without_panic_witness :
    (main World.quiet ["jog", "--frobnicate"]).outcome = .exit 0 :=
  (exit_status_zero_without_panic World.quiet ["jog", "--frobnicate"]).1 (by decide)

/-- C9 (failing input): in `jog "" -h` the argument before `-h` is a
positional argument (it does not begin with `-`), and `main` prints no help:
the test `arg[0:1]` panics on the empty argument, before `-h` is looked at and
before the handler with `recover` is deferred, whatever follows `-h`. -/
theorem empty_positional_before_help_crashes (w : World Cfg) (post : List String) :
    beginsWithDash "" = false
    ∧ tokens ["", "-h"] = [.positional "", .flag "-h"]
    ∧ main w ("jog" :: "" :: "-h" :: post)
        = ⟨[.panic "runtime error: slice bounds out of range [:1] with length 0"],
            .crash⟩ := by
  refine ⟨by decide, by decide, ?_⟩
  have hs : slice01 "" = none := rfl
  exact main_panicked w _ (scan_empty w {} hs ("-h" :: post))

/-- Apart from empty arguments, `-t`, `-h` and `-V` behave as documented: after
non-empty positional arguments, `-d`/`--debug` and complete value options,
`main` prints the template, the help or the version and returns, without
logger, config or input, whatever follows. -/
theorem early_exit_after_passed (w : World Cfg) (prog arg : String) (pre post : List String)
    (hpre : Passed pre) :
    (arg = "-t" ∨ arg = "--template" →
        main w (prog :: (pre ++ arg :: post)) = ⟨PrintConfigTemplate w.DefaultYAML, .exit 0⟩)
    ∧ (arg = "-h" ∨ arg = "--help" →
        main w (prog :: (pre ++ arg :: post)) = ⟨PrintHelp, .exit 0⟩)
    ∧ (arg = "-V" ∨ arg = "--version" →
        main w (prog :: (pre ++ arg :: post)) = ⟨PrintVersion, .exit 0⟩) := by
  obtain ⟨st1, h1⟩ := scan_passed w hpre (arg :: post) {}
  refine ⟨fun h => ?_, fun h => ?_, fun h => ?_⟩
  · exact main_returned w _ (by rw [List.drop_one, List.tail_cons, h1, scan_template w st1 h])
  · exact main_returned w _ (by rw [List.drop_one, List.tail_cons, h1, scan_help w st1 h])
  · exact main_returned w _ (by rw [List.drop_one, List.tail_cons, h1, scan_version w st1 h])

end Claims

end Jog
